import Mathlib

/-!
Greetings module (getting_started/create_module/greetings/greetings.go).

A shallow embedding of the Go package `greetings`: `Hello`, `Hellos` and
`randomFormat`, together with the parts of the Go standard library they call
(`errors.New`, `fmt.Sprintf`, `rand.Intn`, slice indexing, `map[string]string`).

* Go strings are Lean `String`s: sequences of Unicode code points, that is,
  the Go strings that are valid UTF-8.
* The process-wide random generator is explicit state (`RandState`) threaded
  through every function that reaches `rand.Intn`.
* A Go panic is the outer `Option` being `none`; the Go `error` result is an
  inner `Option GoError` (`none` is the nil error).
* `GoError` is an error value seen through its text alone. Where it matters
  which error value is returned, and not only what it says, the namespace
  `Alloc` gives `Hello` and `Hellos` with the allocation made by `errors.New`
  explicit: an error value is then a pointer, equal only to itself.
* A Go map result is `Option StrMap` (`none` is the nil map).
-/

namespace Intro

/-! ## The quote printer (getting_started/intro/hello.go) -/

/-- The call `fmt.Println(args...)` with string operands, as its effect on the
text written to standard output so far: the operands separated by single
spaces, then a newline, are appended. The values `(n, err)` it returns are
discarded by the caller. -/
def Println (args : List String) (stdout : String) : String :=
  stdout ++ " ".intercalate args ++ "\n"

/-- The function `main` of the quote printer: `fmt.Println(quote.Go())`.
The package `rsc.io/quote` is an external dependency, so the outcome of the
call `quote.Go()` is the parameter `quoteGo`: `some q` when it returns the text
`q`, `none` when it panics. The result is the text on standard output when
`main` returns, `none` when it panics. -/
def main (quoteGo : Option String) (stdout : String) : Option String :=
  match quoteGo with
  | none => none
  | some q => some (Println [q] stdout)

/-- The number of lines of a text: the number of its newline characters. -/
def lineCount (out : String) : Nat := out.data.count '\n'

end Intro

namespace Greetings

/-! ## Standard library pieces -/

/-- The builtin `len(s)` of a string: its length in bytes. -/
def len (s : String) : Nat := s.utf8ByteSize

/-- The `errorString` that `errors.New` builds: it carries only its message
text. Two of them with the same text are equal here; the identity of an error
value (the pointer Go compares with `==`) is `Alloc.ErrorPtr`. -/
structure GoError where
  msg : String
  deriving DecidableEq, Repr

/-- The constructor `errors.New(text)`. -/
def errorsNew (text : String) : GoError := ⟨text⟩

/-- The method `Error()` of an error value. -/
def GoError.Error (e : GoError) : String := e.msg

/-- The process-wide pseudo-random generator, seen at the granularity of calls
of `rand.Intn`: `stream k` is the raw value the generator hands to the `k`-th
call made since start-up (fixed by the seed set in `init`), and `pos` counts the
calls made so far. -/
structure RandState where
  stream : Nat → Nat
  pos : Nat

/-- The call `rand.Intn(n)`: panics when `n <= 0`; otherwise returns a value in
`[0, n)` and advances the generator by one step. -/
def Intn (n : Int) (s : RandState) : Option (Int × RandState) :=
  if n ≤ 0 then none
  else some ((s.stream s.pos : Int) % n, ⟨s.stream, s.pos + 1⟩)

/-- The slice index expression `xs[i]`: panics when `i` is out of range. -/
def index (xs : List String) (i : Int) : Option String :=
  if 0 ≤ i ∧ i < (xs.length : Int) then xs[i.toNat]? else none

/-- What `fmt` prints for one string operand under the verb `verb`: the verbs
`v` and `s` copy the operand unchanged, any other verb yields the bad-verb
text `%!verb(string=operand)`. -/
def printArg (verb : Char) (a : String) : List Char :=
  if verb = 'v' ∨ verb = 's' then a.data
  else "%!".data ++ [verb] ++ "(string=".data ++ a.data ++ [')']

/-- The list of left-over operands, as printed inside `%!(EXTRA ...)`. -/
def extraList : List String → List Char
  | [] => []
  | [a] => "string=".data ++ a.data
  | a :: b :: rest => "string=".data ++ a.data ++ ", ".data ++ extraList (b :: rest)

/-- The tail `fmt` appends when operands remain after the format is used up. -/
def extraArgs (args : List String) : List Char :=
  match args with
  | [] => []
  | _ :: _ => "%!(EXTRA ".data ++ extraList args ++ [')']

/-- The scanning loop of `fmt.Sprintf` for string operands. Text outside a
directive is copied; `%%` prints a percent sign; `%` followed by a verb prints
the next operand with `printArg`, or `%!verb(MISSING)` when none is left; a
trailing `%` prints `%!(NOVERB)`. Flags, width, precision and explicit operand
indexes are not part of this fragment (the formats of `randomFormat` use none
of them). -/
def doPrintf : List Char → List String → List Char
  | [], args => extraArgs args
  | c :: rest, args =>
    if c ≠ '%' then c :: doPrintf rest args
    else
      match rest with
      | [] => "%!(NOVERB)".data ++ extraArgs args
      | verb :: rest' =>
        if verb = '%' then '%' :: doPrintf rest' args
        else
          match args with
          | [] => "%!".data ++ [verb] ++ "(MISSING)".data ++ doPrintf rest' []
          | a :: as => printArg verb a ++ doPrintf rest' as

/-- The call `fmt.Sprintf(format, args...)` with string operands. -/
def Sprintf (format : String) (args : List String) : String :=
  ⟨doPrintf format.data args⟩

/-- The predicate `strings.Contains(s, sub)`: `sub` occurs in `s` as a
contiguous run of characters. -/
def Contains (s sub : String) : Prop := sub.data <:+: s.data

instance (s sub : String) : Decidable (Contains s sub) := by
  unfold Contains; infer_instance

/-- A Go `map[string]string` value: its entries, at most one per key. The order
of the list is the order in which keys were first stored; Go gives a map no
order, and nothing below depends on it. -/
abbrev StrMap := List (String × String)

/-- The assignment `m[k] = v`: replaces the value of an existing key, or adds a
new entry. -/
def StrMap.set : StrMap → String → String → StrMap
  | [], k, v => [(k, v)]
  | (k', v') :: rest, k, v =>
    if k' = k then (k, v) :: rest else (k', v') :: StrMap.set rest k v

/-- The lookup `v, ok := m[k]`. -/
def StrMap.get? : StrMap → String → Option String
  | [], _ => none
  | (k', v') :: rest, k => if k' = k then some v' else StrMap.get? rest k

/-- The keys of a map. -/
def StrMap.keys (m : StrMap) : List String := m.map Prod.fst

/-- The builtin `len(m)`. -/
def StrMap.len (m : StrMap) : Nat := m.length

/-! ## The package -/

/-- The slice literal `formats` of `randomFormat`. -/
def formats : List String :=
  [ "Hi, %v. Welcome!",
    "Great to see you, %v!",
    "Hail, %v! Well met!" ]

/-- The function `randomFormat`: returns `formats[rand.Intn(len(formats))]`. -/
def randomFormat (s : RandState) : Option (String × RandState) :=
  match Intn (formats.length : Int) s with
  | none => none
  | some (i, s') =>
    match index formats i with
    | none => none
    | some f => some (f, s')

/-- The function `Hello`: the pair is `(message, err)`. -/
def Hello (name : String) (s : RandState) :
    Option ((String × Option GoError) × RandState) :=
  if name = "" then some (("", some (errorsNew "empty name")), s)
  else
    match randomFormat s with
    | none => none
    | some (format, s') =>
      let message := Sprintf format [name]
      some ((message, none), s')

/-- The `for _, name := range names` loop of `Hellos`, started with the map
`messages` built so far. The pair is `(map, err)`; a `none` map is nil. The
error is seen through its text here; `Alloc.HellosLoop` is the same loop with
the error as the pointer it is. -/
def HellosLoop : List String → StrMap → RandState →
    Option ((Option StrMap × Option GoError) × RandState)
  | [], messages, s => some ((some messages, none), s)
  | name :: rest, messages, s =>
    match Hello name s with
    | none => none
    | some ((message, err), s') =>
      match err with
      | some e => some ((none, some e), s')
      | none => HellosLoop rest (messages.set name message) s'

/-- The function `Hellos`: `messages := make(map[string]string)`, then the
loop. -/
def Hellos (names : List String) (s : RandState) :
    Option ((Option StrMap × Option GoError) × RandState) :=
  HellosLoop names [] s

/-! ## The package, with the allocation of error values explicit -/

namespace Alloc

/-- An error value as the program holds it: the pointer to an `errorString` that
`errors.New` returned. `addr` is the address and `val` the `errorString` stored
there. Go's `==` on two such error values compares the pointers. -/
structure ErrorPtr where
  addr : Nat
  val : GoError
  deriving DecidableEq, Repr

/-- The method `Error()` of an error value. -/
def ErrorPtr.Error (e : ErrorPtr) : String := e.val.Error

/-- The state of the process: the random generator, and `heap`, the number of
`errorString` values allocated so far, which is the address the next one
gets. -/
structure State where
  rand : RandState
  heap : Nat

/-- The call `errors.New(text)`: allocates a new `errorString` at the next free
address and returns the pointer to it, with the heap grown by one. Every call
returns a value different from all earlier ones, also for the same text. -/
def errorsNew (text : String) (heap : Nat) : ErrorPtr × Nat :=
  (⟨heap, ⟨text⟩⟩, heap + 1)

/-- The function `Hello`: the pair is `(message, err)`. -/
def Hello (name : String) (s : State) :
    Option ((String × Option ErrorPtr) × State) :=
  if name = "" then
    match errorsNew "empty name" s.heap with
    | (e, heap') => some (("", some e), ⟨s.rand, heap'⟩)
  else
    match randomFormat s.rand with
    | none => none
    | some (format, r') =>
      let message := Sprintf format [name]
      some ((message, none), ⟨r', s.heap⟩)

/-- The `for _, name := range names` loop of `Hellos`, started with the map
`messages` built so far: on an error it returns `nil, err`, the `err` being the
value `Hello` returned. -/
def HellosLoop : List String → StrMap → State →
    Option ((Option StrMap × Option ErrorPtr) × State)
  | [], messages, s => some ((some messages, none), s)
  | name :: rest, messages, s =>
    match Hello name s with
    | none => none
    | some ((message, err), s') =>
      match err with
      | some e => some ((none, some e), s')
      | none => HellosLoop rest (messages.set name message) s'

/-- The function `Hellos`: `messages := make(map[string]string)`, then the
loop. -/
def Hellos (names : List String) (s : State) :
    Option ((Option StrMap × Option ErrorPtr) × State) :=
  HellosLoop names [] s

/-- What is left of a result when error values are seen through their text and
the state through its generator. -/
def erase {α : Type} (r : (α × Option ErrorPtr) × State) :
    (α × Option GoError) × RandState :=
  ((r.1.1, r.1.2.map ErrorPtr.val), r.2.rand)

end Alloc

/-! ## The greeting shapes of the specification -/

/-- The three greeting shapes as the specification writes them, with the name
`n` substituted: `Hi, n. Welcome!`, `Great to see you, n!` and
`Hail, n! Well met!`. -/
def shapes (n : String) : List String :=
  [ "Hi, " ++ n ++ ". Welcome!",
    "Great to see you, " ++ n ++ "!",
    "Hail, " ++ n ++ "! Well met!" ]

/-- The fixed text of each format before and after its verb `%v`. -/
def parts : List (String × String) :=
  [ ("Hi, ", ". Welcome!"),
    ("Great to see you, ", "!"),
    ("Hail, ", "! Well met!") ]

/-- The probability of `event` when the draw is uniform over the `n` values
`0, ..., n-1`: the number of draw values in the event, over `n`. -/
def uniformProb (n : Nat) (event : Nat → Bool) : ℚ :=
  (((List.range n).filter event).length : ℚ) / (n : ℚ)

/-! ## Basic facts about the library pieces -/

theorem Intn_three (s : RandState) :
    Intn 3 s = some (((s.stream s.pos % 3 : Nat) : Int), ⟨s.stream, s.pos + 1⟩) := by
  simp [Intn]

theorem index_formats_natCast (i : Nat) : index formats (i : Int) = formats[i]? := by
  unfold index
  by_cases h : i < formats.length
  · simp [h]
  · have h' : formats.length ≤ i := Nat.le_of_not_lt h
    simp [h, List.getElem?_eq_none h']

theorem randomFormat_eq (s : RandState) :
    randomFormat s
      = (formats[s.stream s.pos % 3]?).map (fun f => (f, (⟨s.stream, s.pos + 1⟩ : RandState))) := by
  unfold randomFormat
  have h3 : ((formats.length : Nat) : Int) = 3 := rfl
  rw [h3, Intn_three]
  simp only [index_formats_natCast]
  cases formats[s.stream s.pos % 3]? <;> rfl

theorem Sprintf_format0 (n : String) :
    Sprintf "Hi, %v. Welcome!" [n] = "Hi, " ++ n ++ ". Welcome!" := by
  apply String.ext; rfl

theorem Sprintf_format1 (n : String) :
    Sprintf "Great to see you, %v!" [n] = "Great to see you, " ++ n ++ "!" := by
  apply String.ext; rfl

theorem Sprintf_format2 (n : String) :
    Sprintf "Hail, %v! Well met!" [n] = "Hail, " ++ n ++ "! Well met!" := by
  apply String.ext; rfl

/-- The message `Hello` builds from the draw `i`: the `i`-th shape. -/
theorem Hello_eq_shape (n : String) (hn : n ≠ "") (s : RandState) :
    ∃ msg, (shapes n)[s.stream s.pos % 3]? = some msg ∧
      Hello n s = some ((msg, none), ⟨s.stream, s.pos + 1⟩) := by
  unfold Hello
  rw [if_neg hn, randomFormat_eq]
  have hlt : s.stream s.pos % 3 < 3 := Nat.mod_lt _ (by decide)
  generalize s.stream s.pos % 3 = i at hlt
  interval_cases i
  · exact ⟨"Hi, " ++ n ++ ". Welcome!", rfl, by simp [formats, Sprintf_format0]⟩
  · exact ⟨"Great to see you, " ++ n ++ "!", rfl, by simp [formats, Sprintf_format1]⟩
  · exact ⟨"Hail, " ++ n ++ "! Well met!", rfl, by simp [formats, Sprintf_format2]⟩

/-- Every one of the three shapes for `n` is non-empty and contains `n`. -/
theorem shape_contains (n msg : String) (i : Nat) (h : (shapes n)[i]? = some msg) :
    msg ≠ "" ∧ Contains msg n := by
  have key : ∀ pre post : String, pre ≠ "" →
      pre ++ n ++ post ≠ "" ∧ Contains (pre ++ n ++ post) n := by
    intro pre post hpre
    refine ⟨fun hEq => hpre ?_, ⟨pre.data, post.data, by simp [String.data_append]⟩⟩
    have hd := congrArg String.data hEq
    simp only [String.data_append, List.append_assoc] at hd
    exact String.ext ((List.append_eq_nil.mp hd).1)
  rcases i with _ | _ | _ | i
  · simp [shapes] at h; subst h; exact key _ _ (by decide)
  · simp [shapes] at h; subst h; exact key _ _ (by decide)
  · simp [shapes] at h; subst h; exact key _ _ (by decide)
  · simp [shapes] at h

theorem mem_of_getElem?_shapes (n msg : String) (i : Nat)
    (h : (shapes n)[i]? = some msg) : msg ∈ shapes n :=
  List.getElem?_mem h

/-! ## Hello -/

/-- C1: for every non-empty name `n` and every state of the random source,
`Hello n` does not panic, returns the nil error, and its message is a non-empty
string that contains `n` as a contiguous substring. -/
theorem Hello_nonempty_name_contains (n : String) (hn : n ≠ "") (s : RandState) :
    ∃ msg s', Hello n s = some ((msg, none), s') ∧ msg ≠ "" ∧ Contains msg n := by
  obtain ⟨msg, hshape, hHello⟩ := Hello_eq_shape n hn s
  exact ⟨msg, _, hHello, shape_contains n msg _ hshape⟩

/-- C1 at the name `Gladys` with the generator whose `k`-th raw value is `k`. -/
theorem Hello_nonempty_name_contains_witness :
    "Gladys" ≠ "" ∧
      ∃ msg s', Hello "Gladys" ⟨fun k => k, 0⟩ = some ((msg, none), s') ∧
        msg ≠ "" ∧ Contains msg "Gladys" :=
  ⟨by decide, Hello_nonempty_name_contains "Gladys" (by decide) ⟨fun k => k, 0⟩⟩

/-- C2: `Hello` returns a non-nil error exactly when its name is the empty
string (for any other name it returns a message and the nil error); for the
empty string it returns, in every state of the random source, the empty message
together with the error whose text is `empty name`. -/
theorem Hello_error_iff_empty_name :
    (∀ (name : String) (s : RandState),
      ((∃ msg e s', Hello name s = some ((msg, some e), s')) ↔ name = "") ∧
      ((∃ msg s', Hello name s = some ((msg, none), s')) ↔ name ≠ "")) ∧
    (∀ s : RandState, ∃ e s', Hello "" s = some (("", some e), s') ∧
      e.Error = "empty name") := by
  refine ⟨fun name s => ?_, fun s => ⟨errorsNew "empty name", s, by simp [Hello], rfl⟩⟩
  by_cases hn : name = ""
  · subst hn
    simp [Hello]
  · obtain ⟨msg, _, hHello⟩ := Hello_eq_shape name hn s
    simp [hHello, hn]

/-- C3: for every non-empty name `n` the message of `Hello n` is one of the
three shapes for `n`, namely the `i`-th one, where `i` in `{0,1,2}` is the value
drawn by `rand.Intn(3)`; for `Gladys` the message is one of
`Hi, Gladys. Welcome!`, `Great to see you, Gladys!`, `Hail, Gladys! Well met!`. -/
theorem Hello_message_is_drawn_shape :
    (∀ (n : String), n ≠ "" → ∀ s : RandState,
      ∃ (i : Nat) (s' : RandState) (msg : String),
        Intn (formats.length : Int) s = some ((i : Int), s') ∧ i < 3 ∧
        (shapes n)[i]? = some msg ∧ msg ∈ shapes n ∧
        Hello n s = some ((msg, none), s')) ∧
    (∀ s : RandState, ∃ msg s', Hello "Gladys" s = some ((msg, none), s') ∧
      msg ∈ ["Hi, Gladys. Welcome!", "Great to see you, Gladys!",
             "Hail, Gladys! Well met!"]) := by
  constructor
  · intro n hn s
    obtain ⟨msg, hshape, hHello⟩ := Hello_eq_shape n hn s
    exact ⟨s.stream s.pos % 3, ⟨s.stream, s.pos + 1⟩, msg, Intn_three s,
      Nat.mod_lt _ (by decide), hshape, mem_of_getElem?_shapes n msg _ hshape, hHello⟩
  · intro s
    obtain ⟨msg, hshape, hHello⟩ := Hello_eq_shape "Gladys" (by decide) s
    exact ⟨msg, _, hHello, mem_of_getElem?_shapes "Gladys" msg _ hshape⟩

/-- C3 at the name `Gladys`, where the draw is `1`: the message is the second
shape. -/
theorem Hello_message_is_drawn_shape_witness :
    "Gladys" ≠ "" ∧
      ∃ (i : Nat) (s' : RandState) (msg : String),
        Intn (formats.length : Int) ⟨fun k => k + 1, 0⟩ = some ((i : Int), s') ∧ i < 3 ∧
        (shapes "Gladys")[i]? = some msg ∧ msg ∈ shapes "Gladys" ∧
        Hello "Gladys" ⟨fun k => k + 1, 0⟩ = some ((msg, none), s') :=
  ⟨by decide, Hello_message_is_drawn_shape.1 "Gladys" (by decide) ⟨fun k => k + 1, 0⟩⟩

/-! ## Facts about maps -/

theorem StrMap.mem_keys_set (m : StrMap) (k v k' : String) :
    k' ∈ (m.set k v).keys ↔ k' = k ∨ k' ∈ m.keys := by
  induction m with
  | nil => simp [StrMap.set, StrMap.keys]
  | cons e rest ih =>
    obtain ⟨k0, v0⟩ := e
    simp only [StrMap.keys] at ih
    by_cases h : k0 = k
    · subst h; simp [StrMap.set, StrMap.keys]
    · simp only [StrMap.set, if_neg h, StrMap.keys, List.map_cons, List.mem_cons, ih]
      tauto

theorem StrMap.nodup_keys_set (m : StrMap) (k v : String) (h : m.keys.Nodup) :
    (m.set k v).keys.Nodup := by
  induction m with
  | nil => simp [StrMap.set, StrMap.keys]
  | cons e rest ih =>
    obtain ⟨k0, v0⟩ := e
    have hcons : k0 ∉ StrMap.keys rest ∧ (StrMap.keys rest).Nodup := by
      simpa [StrMap.keys] using h
    by_cases hk : k0 = k
    · subst hk; simpa [StrMap.set, StrMap.keys] using h
    · have hmem := StrMap.mem_keys_set rest k v k0
      have ih' := ih hcons.2
      simp only [StrMap.keys] at hmem ih' hcons
      simp only [StrMap.set, if_neg hk, StrMap.keys, List.map_cons, List.nodup_cons]
      exact ⟨fun hin => (hmem.mp hin).elim hk hcons.1, ih'⟩

theorem StrMap.get?_set_self (m : StrMap) (k v : String) :
    (m.set k v).get? k = some v := by
  induction m with
  | nil => simp [StrMap.set, StrMap.get?]
  | cons e rest ih =>
    obtain ⟨k0, v0⟩ := e
    by_cases h : k0 = k
    · simp [StrMap.set, StrMap.get?, h]
    · simp [StrMap.set, StrMap.get?, h, ih]

theorem StrMap.get?_set_ne (m : StrMap) (k v k' : String) (hne : k' ≠ k) :
    (m.set k v).get? k' = m.get? k' := by
  induction m with
  | nil => simp [StrMap.set, StrMap.get?, Ne.symm hne]
  | cons e rest ih =>
    obtain ⟨k0, v0⟩ := e
    by_cases h : k0 = k
    · subst h; simp [StrMap.set, StrMap.get?, Ne.symm hne]
    · by_cases h' : k0 = k'
      · subst h'; simp [StrMap.set, StrMap.get?, h]
      · simp [StrMap.set, StrMap.get?, h, h', ih]

theorem StrMap.get?_eq_none_iff (m : StrMap) (k : String) :
    m.get? k = none ↔ k ∉ m.keys := by
  induction m with
  | nil => simp [StrMap.get?, StrMap.keys]
  | cons e rest ih =>
    obtain ⟨k0, v0⟩ := e
    simp only [StrMap.keys] at ih
    by_cases h : k0 = k
    · simp [StrMap.get?, StrMap.keys, h]
    · simp [StrMap.get?, StrMap.keys, h, ih, Ne.symm h]

/-! ## The loop of Hellos -/

/-- The loop on names that are all non-empty: it succeeds after one draw per
name, and the map it returns holds the old keys and the names, keeps keys
unique, leaves other keys alone, and stores under each name the message `Hello`
built at the last position where the name occurs. -/
theorem HellosLoop_ok (names : List String) :
    ∀ (m : StrMap) (s : RandState), (∀ n ∈ names, n ≠ "") →
      ∃ m' : StrMap,
        HellosLoop names m s = some ((some m', none), ⟨s.stream, s.pos + names.length⟩) ∧
        (∀ k, k ∈ m'.keys ↔ k ∈ m.keys ∨ k ∈ names) ∧
        (m.keys.Nodup → m'.keys.Nodup) ∧
        (∀ k, k ∉ names → m'.get? k = m.get? k) ∧
        (∀ (j : Nat) (k : String), names[j]? = some k →
          (∀ j', j < j' → names[j']? ≠ some k) →
          ∃ v, m'.get? k = some v ∧
            Hello k ⟨s.stream, s.pos + j⟩ = some ((v, none), ⟨s.stream, s.pos + j + 1⟩)) := by
  induction names with
  | nil =>
    intro m s _
    exact ⟨m, rfl, by simp, id, fun _ _ => rfl, by simp⟩
  | cons n rest ih =>
    intro m s hne
    have hn : n ≠ "" := hne n (List.mem_cons_self _ _)
    obtain ⟨v, _, hHello⟩ := Hello_eq_shape n hn s
    obtain ⟨m', hloop, hkeys, hnodup, hframe, hlast⟩ :=
      ih (m.set n v) ⟨s.stream, s.pos + 1⟩ (fun x hx => hne x (List.mem_cons_of_mem _ hx))
    refine ⟨m', ?_, ?_, ?_, ?_, ?_⟩
    · simp only [HellosLoop, hHello, hloop, List.length_cons]
      have : s.pos + 1 + rest.length = s.pos + (rest.length + 1) := by omega
      rw [this]
    · intro k
      rw [hkeys k, StrMap.mem_keys_set, List.mem_cons]
      tauto
    · exact fun h => hnodup (StrMap.nodup_keys_set m n v h)
    · intro k hk
      have hk' : k ≠ n ∧ k ∉ rest := by simpa using hk
      rw [hframe k hk'.2, StrMap.get?_set_ne m n v k hk'.1]
    · intro j k hj hlater
      cases j with
      | zero =>
        have hkn : n = k := by simpa using hj
        subst hkn
        have hnot : n ∉ rest := by
          intro hin
          obtain ⟨i, hi⟩ := List.mem_iff_getElem?.mp hin
          exact hlater (i + 1) (Nat.succ_pos i) (by simpa using hi)
        exact ⟨v, by rw [hframe n hnot, StrMap.get?_set_self], hHello⟩
      | succ j0 =>
        have hj0 : rest[j0]? = some k := by simpa using hj
        obtain ⟨w, hw, hH⟩ := hlast j0 k hj0 (fun j' hlt => by
          have := hlater (j' + 1) (Nat.succ_lt_succ hlt)
          simpa using this)
        refine ⟨w, hw, ?_⟩
        have e1 : s.pos + (j0 + 1) = s.pos + 1 + j0 := by omega
        rw [e1]
        exact hH

/-- The loop on names whose first empty one comes after `pre`: it fails after
one draw per name of `pre`, with the nil map and the error of `Hello`. -/
theorem HellosLoop_fail (pre post : List String) :
    ∀ (m : StrMap) (s : RandState), (∀ n ∈ pre, n ≠ "") →
      HellosLoop (pre ++ "" :: post) m s
        = some ((none, some (errorsNew "empty name")), ⟨s.stream, s.pos + pre.length⟩) := by
  induction pre with
  | nil =>
    intro m s _
    simp [HellosLoop, Hello]
  | cons n rest ih =>
    intro m s hne
    have hn : n ≠ "" := hne n (List.mem_cons_self _ _)
    obtain ⟨v, _, hHello⟩ := Hello_eq_shape n hn s
    have h := ih (m.set n v) ⟨s.stream, s.pos + 1⟩
      (fun x hx => hne x (List.mem_cons_of_mem _ hx))
    have e1 : s.pos + 1 + rest.length = s.pos + (rest.length + 1) := by omega
    show HellosLoop (n :: (rest ++ "" :: post)) m s = _
    simp only [HellosLoop, hHello, h, List.length_cons, e1]

/-- A list that holds the empty name splits at its first empty name. -/
theorem split_at_first_empty (names : List String) (h : "" ∈ names) :
    ∃ pre post, names = pre ++ "" :: post ∧ ∀ n ∈ pre, n ≠ "" := by
  obtain ⟨pre, post, hEq, hnot⟩ := List.eq_append_cons_of_mem h
  exact ⟨pre, post, hEq, fun n hn hEq' => hnot (hEq' ▸ hn)⟩

/-- Every member of a list has a last position. -/
theorem exists_last_index (names : List String) (k : String) (h : k ∈ names) :
    ∃ j : Nat, names[j]? = some k ∧ ∀ j' : Nat, j < j' → names[j']? ≠ some k := by
  induction names with
  | nil => simp at h
  | cons n rest ih =>
    by_cases hin : k ∈ rest
    · obtain ⟨j, hj, hlast⟩ := ih hin
      refine ⟨j + 1, by simpa using hj, fun j' hlt => ?_⟩
      obtain ⟨j0, rfl⟩ : ∃ j0, j' = j0 + 1 := ⟨j' - 1, by omega⟩
      simpa using hlast j0 (by omega)
    · have hkn : k = n := by
        rcases List.mem_cons.mp h with h1 | h1
        · exact h1
        · exact absurd h1 hin
      subst hkn
      refine ⟨0, by simp, fun j' hlt => ?_⟩
      obtain ⟨j0, rfl⟩ : ∃ j0, j' = j0 + 1 := ⟨j' - 1, by omega⟩
      intro hEq
      exact hin (List.getElem?_mem (by simpa using hEq))

/-- The message `Hello` returns for a non-empty name is one of its shapes. -/
theorem Hello_value_mem_shapes (k v : String) (hk : k ≠ "") (s s' : RandState)
    (h : Hello k s = some ((v, none), s')) : v ∈ shapes k := by
  obtain ⟨msg, hshape, hHello⟩ := Hello_eq_shape k hk s
  rw [hHello] at h
  have hv : msg = v := by
    have := Option.some.inj h
    exact congrArg (fun r => r.1.1) this
  exact hv ▸ List.getElem?_mem hshape

/-- Every shape for `k` is non-empty and contains `k`. -/
theorem contains_of_mem_shapes (k v : String) (h : v ∈ shapes k) :
    v ≠ "" ∧ Contains v k := by
  obtain ⟨i, hi⟩ := List.mem_iff_getElem?.mp h
  exact shape_contains k v i hi

/-- The function `Hellos` on names that are all non-empty: it succeeds after one
draw per name; the keys of the table are unique and are exactly the names; each
name is mapped to the message `Hello` built at its last position. -/
theorem Hellos_ok (names : List String) (hne : ∀ n ∈ names, n ≠ "") (s : RandState) :
    ∃ m : StrMap,
      Hellos names s = some ((some m, none), ⟨s.stream, s.pos + names.length⟩) ∧
      m.keys.Nodup ∧
      (∀ k, k ∈ m.keys ↔ k ∈ names) ∧
      (∀ (j : Nat) (k : String), names[j]? = some k →
        (∀ j', j < j' → names[j']? ≠ some k) →
        ∃ v, m.get? k = some v ∧
          Hello k ⟨s.stream, s.pos + j⟩ = some ((v, none), ⟨s.stream, s.pos + j + 1⟩)) ∧
      (∀ k v, m.get? k = some v → v ∈ shapes k) := by
  obtain ⟨m, hloop, hkeys, hnodup, _, hlast⟩ := HellosLoop_ok names [] s hne
  have hkeys' : ∀ k, k ∈ m.keys ↔ k ∈ names := fun k => by
    rw [hkeys k]; simp [StrMap.keys]
  refine ⟨m, hloop, hnodup (by simp [StrMap.keys]), hkeys', hlast, ?_⟩
  intro k v hget
  have hin : k ∈ names := by
    apply (hkeys' k).mp
    by_contra hnot
    rw [(StrMap.get?_eq_none_iff m k).mpr hnot] at hget
    exact Option.noConfusion hget
  obtain ⟨j, hj, hl⟩ := exists_last_index names k hin
  obtain ⟨w, hw, hH⟩ := hlast j k hj hl
  have hvw : w = v := Option.some.inj (hw.symm.trans hget)
  exact hvw ▸ Hello_value_mem_shapes k w (hne k hin) _ _ hH

/-- A key of a map has a value. -/
theorem StrMap.get?_of_mem_keys (m : StrMap) (k : String) (h : k ∈ m.keys) :
    ∃ v, m.get? k = some v := by
  cases hget : m.get? k with
  | none => exact absurd h ((StrMap.get?_eq_none_iff m k).mp hget)
  | some v => exact ⟨v, rfl⟩

/-- The function `Hellos` on names one of which is empty: it fails with the nil
map and the error of `Hello`, after one draw per name before the first empty
one. -/
theorem Hellos_fail (names : List String) (h : "" ∈ names) (s : RandState) :
    ∃ pre post, names = pre ++ "" :: post ∧ (∀ n ∈ pre, n ≠ "") ∧
      Hellos names s
        = some ((none, some (errorsNew "empty name")), ⟨s.stream, s.pos + pre.length⟩) := by
  obtain ⟨pre, post, hEq, hpre⟩ := split_at_first_empty names h
  refine ⟨pre, post, hEq, hpre, ?_⟩
  rw [hEq]
  exact HellosLoop_fail pre post [] s hpre

/-! ## Hellos -/

/-- C4: for every sequence of pairwise distinct non-empty names and every state
of the random source, `Hellos` succeeds with the nil error; the table has as
many entries as the sequence has names, its keys are unique and are exactly the
names, every name has a value, and the value stored under every key contains
that key as a substring. -/
theorem Hellos_distinct_names_table (names : List String)
    (hne : ∀ n ∈ names, n ≠ "") (hd : names.Nodup) (s : RandState) :
    ∃ (m : StrMap) (s' : RandState),
      Hellos names s = some ((some m, none), s') ∧
      m.len = names.length ∧
      m.keys.Nodup ∧
      (∀ k, k ∈ m.keys ↔ k ∈ names) ∧
      (∀ k ∈ names, ∃ v, m.get? k = some v) ∧
      (∀ k v, m.get? k = some v → Contains v k) := by
  obtain ⟨m, hrun, hnodup, hkeys, _, hshape⟩ := Hellos_ok names hne s
  refine ⟨m, _, hrun, ?_, hnodup, hkeys, ?_, ?_⟩
  · have hperm : m.keys.Perm names := (List.perm_ext_iff_of_nodup hnodup hd).mpr hkeys
    have hlen := hperm.length_eq
    simpa [StrMap.keys, StrMap.len] using hlen
  · exact fun k hk => StrMap.get?_of_mem_keys m k ((hkeys k).mpr hk)
  · exact fun k v hget => (contains_of_mem_shapes k v (hshape k v hget)).2

/-- C4 at the names `Alice`, `Bob`, `Carol`. -/
theorem Hellos_distinct_names_table_witness :
    (∀ n ∈ ["Alice", "Bob", "Carol"], n ≠ "") ∧ ["Alice", "Bob", "Carol"].Nodup ∧
      ∃ (m : StrMap) (s' : RandState),
        Hellos ["Alice", "Bob", "Carol"] ⟨fun k => k, 0⟩ = some ((some m, none), s') ∧
        m.len = ["Alice", "Bob", "Carol"].length ∧
        m.keys.Nodup ∧
        (∀ k, k ∈ m.keys ↔ k ∈ ["Alice", "Bob", "Carol"]) ∧
        (∀ k ∈ ["Alice", "Bob", "Carol"], ∃ v, m.get? k = some v) ∧
        (∀ k v, m.get? k = some v → Contains v k) :=
  ⟨by decide, by decide,
    Hellos_distinct_names_table ["Alice", "Bob", "Carol"] (by decide) (by decide)
      ⟨fun k => k, 0⟩⟩

/-- C5: `Hellos names` returns a non-nil error exactly when some element of
`names` is the empty string, and succeeds with the nil error exactly when none
is; an empty name makes it fail whatever stands before and after it and
whatever the state of the random source. -/
theorem Hellos_error_iff_empty_element :
    (∀ (names : List String) (s : RandState),
      ((∃ mres e s', Hellos names s = some ((mres, some e), s')) ↔ "" ∈ names) ∧
      ((∃ m s', Hellos names s = some ((some m, none), s')) ↔ "" ∉ names)) ∧
    (∀ (pre post : List String) (s : RandState),
      ∃ mres e s', Hellos (pre ++ "" :: post) s = some ((mres, some e), s')) := by
  have hfail : ∀ (names : List String) (s : RandState), "" ∈ names →
      ∃ s', Hellos names s = some ((none, some (errorsNew "empty name")), s') := by
    intro names s h
    obtain ⟨pre, _, _, _, hrun⟩ := Hellos_fail names h s
    exact ⟨_, hrun⟩
  have hok : ∀ (names : List String) (s : RandState), "" ∉ names →
      ∃ m s', Hellos names s = some ((some m, none), s') := by
    intro names s h
    obtain ⟨m, hrun, _⟩ := Hellos_ok names (fun n hn hEq => h (hEq ▸ hn)) s
    exact ⟨m, _, hrun⟩
  refine ⟨fun names s => ⟨⟨?_, ?_⟩, ⟨?_, ?_⟩⟩, fun pre post s => ?_⟩
  · rintro ⟨mres, e, s', hrun⟩
    by_contra hnot
    obtain ⟨m, s'', hrun'⟩ := hok names s hnot
    rw [hrun'] at hrun
    simp at hrun
  · intro h
    obtain ⟨s', hrun⟩ := hfail names s h
    exact ⟨none, _, s', hrun⟩
  · rintro ⟨m, s', hrun⟩ hin
    obtain ⟨s'', hrun'⟩ := hfail names s hin
    rw [hrun'] at hrun
    simp at hrun
  · exact hok names s
  · obtain ⟨s', hrun⟩ := hfail (pre ++ "" :: post) s (by simp)
    exact ⟨none, _, s', hrun⟩

/-- C7: for every sequence of non-empty names in which the name `k` stands at
two positions `i < j`, `j` being its last position, the table of `Hellos` has
exactly one entry for `k`, and its value is the message `Hello` builds for `k`
from the draw made at position `j` (the state reached after `j` draws); a
different message built at the earlier position `i` is not the stored one. -/
theorem Hellos_duplicate_last_write_wins (names : List String)
    (hne : ∀ n ∈ names, n ≠ "") (k : String) (i j : Nat) (_hij : i < j)
    (hi : names[i]? = some k) (hj : names[j]? = some k)
    (hlast : ∀ j' : Nat, j < j' → names[j']? ≠ some k) (s : RandState) :
    ∃ (m : StrMap) (s' : RandState) (v : String),
      Hellos names s = some ((some m, none), s') ∧
      m.keys.count k = 1 ∧
      m.get? k = some v ∧
      Hello k ⟨s.stream, s.pos + j⟩ = some ((v, none), ⟨s.stream, s.pos + j + 1⟩) ∧
      (∀ w, Hello k ⟨s.stream, s.pos + i⟩ = some ((w, none), ⟨s.stream, s.pos + i + 1⟩) →
        w ≠ v → m.get? k ≠ some w) := by
  obtain ⟨m, hrun, hnodup, hkeys, hval, _⟩ := Hellos_ok names hne s
  obtain ⟨v, hget, hH⟩ := hval j k hj hlast
  have hin : k ∈ m.keys := (hkeys k).mpr (List.getElem?_mem hi)
  refine ⟨m, _, v, hrun, List.count_eq_one_of_mem hnodup hin, hget, hH, ?_⟩
  intro w _ hwv hget'
  exact hwv (Option.some.inj (hget'.symm.trans hget))

/-- C7 at the names `A`, `B`, `A` with draws `0`, `1`, `2`: the entry of `A` is
the third shape, built at position `2`, not the first shape built at
position `0`. -/
theorem Hellos_duplicate_last_write_wins_witness :
    Hellos ["A", "B", "A"] ⟨fun k => k, 0⟩
        = some ((some [("A", "Hail, A! Well met!"), ("B", "Great to see you, B!")], none),
            ⟨fun k => k, 3⟩) ∧
      Hello "A" ⟨fun k => k, 0⟩ = some (("Hi, A. Welcome!", none), ⟨fun k => k, 1⟩) ∧
      ∃ (m : StrMap) (s' : RandState) (v : String),
        Hellos ["A", "B", "A"] ⟨fun k => k, 0⟩ = some ((some m, none), s') ∧
        m.keys.count "A" = 1 ∧
        m.get? "A" = some v ∧
        Hello "A" ⟨fun k => k, 0 + 2⟩ = some ((v, none), ⟨fun k => k, 0 + 2 + 1⟩) ∧
        (∀ w, Hello "A" ⟨fun k => k, 0 + 0⟩ = some ((w, none), ⟨fun k => k, 0 + 0 + 1⟩) →
          w ≠ v → m.get? "A" ≠ some w) :=
  ⟨rfl, rfl,
    Hellos_duplicate_last_write_wins ["A", "B", "A"] (by decide) "A" 0 2 (by decide) rfl rfl
      (fun j' hlt => by rw [List.getElem?_eq_none (by simpa using hlt)]; simp)
      ⟨fun k => k, 0⟩⟩

/-- C8: for every sequence of non-empty names (duplicates allowed), `Hellos`
succeeds and the keys of its table are exactly the names of the input; every key
has a value, and every value is one of the three shapes for its key; for
`Alice`, `Bob` the keys are exactly `Alice` and `Bob`. -/
theorem Hellos_keys_are_names_values_are_shapes :
    (∀ (names : List String), (∀ n ∈ names, n ≠ "") → ∀ s : RandState,
      ∃ (m : StrMap) (s' : RandState),
        Hellos names s = some ((some m, none), s') ∧
        (∀ k, k ∈ m.keys ↔ k ∈ names) ∧
        m.keys.toFinset = names.toFinset ∧
        (∀ k ∈ m.keys, ∃ v, m.get? k = some v ∧ v ∈ shapes k) ∧
        (∀ k v, m.get? k = some v → k ∈ names ∧ v ∈ shapes k)) ∧
    (∀ s : RandState, ∃ (m : StrMap) (s' : RandState),
      Hellos ["Alice", "Bob"] s = some ((some m, none), s') ∧
      (∀ k, k ∈ m.keys ↔ k = "Alice" ∨ k = "Bob") ∧
      (∀ k ∈ m.keys, ∃ v, m.get? k = some v ∧ v ∈ shapes k)) := by
  have main : ∀ (names : List String), (∀ n ∈ names, n ≠ "") → ∀ s : RandState,
      ∃ (m : StrMap) (s' : RandState),
        Hellos names s = some ((some m, none), s') ∧
        (∀ k, k ∈ m.keys ↔ k ∈ names) ∧
        m.keys.toFinset = names.toFinset ∧
        (∀ k ∈ m.keys, ∃ v, m.get? k = some v ∧ v ∈ shapes k) ∧
        (∀ k v, m.get? k = some v → k ∈ names ∧ v ∈ shapes k) := by
    intro names hne s
    obtain ⟨m, hrun, _, hkeys, _, hshape⟩ := Hellos_ok names hne s
    refine ⟨m, _, hrun, hkeys, ?_, ?_, ?_⟩
    · ext k; simp [hkeys k]
    · intro k hk
      obtain ⟨v, hv⟩ := StrMap.get?_of_mem_keys m k hk
      exact ⟨v, hv, hshape k v hv⟩
    · intro k v hget
      refine ⟨(hkeys k).mp ?_, hshape k v hget⟩
      by_contra hnot
      rw [(StrMap.get?_eq_none_iff m k).mpr hnot] at hget
      exact Option.noConfusion hget
  refine ⟨main, fun s => ?_⟩
  obtain ⟨m, s', hrun, hkeys, _, hval, _⟩ := main ["Alice", "Bob"] (by decide) s
  exact ⟨m, s', hrun, fun k => by rw [hkeys k]; simp, hval⟩

/-- C8 at the names `Bob`, `Alice`, `Bob`. -/
theorem Hellos_keys_are_names_values_are_shapes_witness :
    (∀ n ∈ ["Bob", "Alice", "Bob"], n ≠ "") ∧
      ∃ (m : StrMap) (s' : RandState),
        Hellos ["Bob", "Alice", "Bob"] ⟨fun k => 2 * k, 0⟩ = some ((some m, none), s') ∧
        (∀ k, k ∈ m.keys ↔ k ∈ ["Bob", "Alice", "Bob"]) ∧
        m.keys.toFinset = ["Bob", "Alice", "Bob"].toFinset ∧
        (∀ k ∈ m.keys, ∃ v, m.get? k = some v ∧ v ∈ shapes k) ∧
        (∀ k v, m.get? k = some v → k ∈ ["Bob", "Alice", "Bob"] ∧ v ∈ shapes k) :=
  ⟨by decide,
    Hellos_keys_are_names_values_are_shapes.1 ["Bob", "Alice", "Bob"] (by decide)
      ⟨fun k => 2 * k, 0⟩⟩

/-! ## Template selection and the random source -/

/-- The greetings built from the three formats are the three shapes. -/
theorem map_Sprintf_formats (n : String) :
    formats.map (fun f => Sprintf f [n]) = shapes n := by
  simp [formats, shapes, Sprintf_format0, Sprintf_format1, Sprintf_format2]

/-- The three shapes for a name are pairwise distinct. -/
theorem shapes_distinct (n : String) :
    "Hi, " ++ n ++ ". Welcome!" ≠ "Great to see you, " ++ n ++ "!" ∧
    "Hi, " ++ n ++ ". Welcome!" ≠ "Hail, " ++ n ++ "! Well met!" ∧
    "Great to see you, " ++ n ++ "!" ≠ "Hail, " ++ n ++ "! Well met!" := by
  refine ⟨fun h => ?_, fun h => ?_, fun h => ?_⟩ <;>
  · have hd := congrArg String.data h
    simp [String.data_append] at hd

/-- C9: `randomFormat` returns the template `formats[i]` where `i` in `{0,1,2}`
is the value drawn by `rand.Intn(3)`, and it returns template `j` exactly when
the draw is `j`; the three templates are pairwise distinct, and so are, for
every name, the three greetings built from them; hence each template, and each
greeting shape, comes from exactly one of the three draw values, which is
probability `1/3` when the draw is uniform. -/
theorem randomFormat_selects_drawn_template :
    (∀ s : RandState, ∃ (i : Nat) (s' : RandState) (f : String),
      i < 3 ∧ Intn (formats.length : Int) s = some ((i : Int), s') ∧
      formats[i]? = some f ∧ randomFormat s = some (f, s')) ∧
    (∀ (s : RandState) (j : Nat), j < 3 →
      ((randomFormat s).map Prod.fst = formats[j]? ↔
        (Intn (formats.length : Int) s).map Prod.fst = some (j : Int))) ∧
    formats.length = 3 ∧ formats.Nodup ∧
    (∀ n : String, (formats.map (fun f => Sprintf f [n])).Nodup) ∧
    (∀ j : Nat, j < 3 →
      uniformProb formats.length (fun i => decide (formats[i]? = formats[j]?)) = 1 / 3) ∧
    (∀ (n : String) (j : Nat), j < 3 →
      uniformProb formats.length (fun i => decide
        ((formats[i]?).map (fun f => Sprintf f [n])
          = (formats[j]?).map (fun f => Sprintf f [n]))) = 1 / 3) := by
  refine ⟨fun s => ?_, fun s j hj => ?_, rfl, by decide, fun n => ?_, fun j hj => ?_,
    fun n j hj => ?_⟩
  · have hlt : s.stream s.pos % 3 < 3 := Nat.mod_lt _ (by decide)
    have hrf := randomFormat_eq s
    have hI : Intn (formats.length : Int) s
        = some (((s.stream s.pos % 3 : Nat) : Int), ⟨s.stream, s.pos + 1⟩) := Intn_three s
    cases hf : formats[s.stream s.pos % 3]? with
    | none =>
      have := List.getElem?_eq_none_iff.mp hf
      have h3 : formats.length = 3 := rfl
      omega
    | some f =>
      rw [hf] at hrf
      exact ⟨_, _, f, hlt, hI, hf, hrf⟩
  · have hlt : s.stream s.pos % 3 < 3 := Nat.mod_lt _ (by decide)
    have hI : Intn (formats.length : Int) s
        = some (((s.stream s.pos % 3 : Nat) : Int), ⟨s.stream, s.pos + 1⟩) := Intn_three s
    rw [randomFormat_eq, hI]
    generalize s.stream s.pos % 3 = d at hlt
    interval_cases d <;> interval_cases j <;> simp [formats]
  · rw [map_Sprintf_formats]
    obtain ⟨h01, h02, h12⟩ := shapes_distinct n
    simp [shapes, h01, h02, h12]
  · interval_cases j <;> simp [uniformProb, formats, List.range_succ, List.filter]
  · obtain ⟨h01, h02, h12⟩ := shapes_distinct n
    have e0 := Sprintf_format0 n
    have e1 := Sprintf_format1 n
    have e2 := Sprintf_format2 n
    interval_cases j <;>
      simp [uniformProb, formats, List.range_succ, List.filter, e0, e1, e2, h01, h02, h12,
        Ne.symm h01, Ne.symm h02, Ne.symm h12]

/-- C9 at the name `Gladys` and the second template. -/
theorem randomFormat_selects_drawn_template_witness :
    (1 : Nat) < 3 ∧
      uniformProb formats.length (fun i => decide
        ((formats[i]?).map (fun f => Sprintf f ["Gladys"])
          = (formats[1]?).map (fun f => Sprintf f ["Gladys"]))) = 1 / 3 :=
  ⟨by decide, randomFormat_selects_drawn_template.2.2.2.2.2.2 "Gladys" 1 (by decide)⟩

/-- C10: a call of `Hello` with a non-empty name leaves the random source in the
state that exactly one call of `rand.Intn` leaves it in: the position has
advanced by one and the stream of raw values is unchanged. -/
theorem Hello_consumes_one_draw (n : String) (hn : n ≠ "") (s : RandState) :
    ∃ (r : String × Option GoError) (i : Int) (s' : RandState),
      Hello n s = some (r, s') ∧
      Intn (formats.length : Int) s = some (i, s') ∧
      s'.pos = s.pos + 1 ∧ s'.stream = s.stream := by
  obtain ⟨msg, _, hHello⟩ := Hello_eq_shape n hn s
  exact ⟨(msg, none), _, ⟨s.stream, s.pos + 1⟩, hHello, Intn_three s, rfl, rfl⟩

/-- C10 at the name `Gladys`, after four earlier draws. -/
theorem Hello_consumes_one_draw_witness :
    "Gladys" ≠ "" ∧
      ∃ (r : String × Option GoError) (i : Int) (s' : RandState),
        Hello "Gladys" ⟨fun k => 7 * k, 4⟩ = some (r, s') ∧
        Intn (formats.length : Int) ⟨fun k => 7 * k, 4⟩ = some (i, s') ∧
        s'.pos = 4 + 1 ∧ s'.stream = fun k => 7 * k :=
  ⟨by decide, Hello_consumes_one_draw "Gladys" (by decide) ⟨fun k => 7 * k, 4⟩⟩

/-! ## The order of the draws in Hellos -/

/-- The loop on `xs ++ ys`, when the loop on `xs` succeeds, goes on with `ys`
from the map and the generator state the loop on `xs` ends in. -/
theorem HellosLoop_append (xs ys : List String) :
    ∀ (m m' : StrMap) (s s' : RandState),
      HellosLoop xs m s = some ((some m', none), s') →
      HellosLoop (xs ++ ys) m s = HellosLoop ys m' s' := by
  induction xs with
  | nil =>
    intro m m' s s' h
    simp only [HellosLoop, Option.some.injEq, Prod.mk.injEq, and_true] at h
    obtain ⟨hm, hs⟩ := h
    subst hm; subst hs
    rfl
  | cons x rest ih =>
    intro m m' s s' h
    show HellosLoop (x :: (rest ++ ys)) m s = _
    cases hH : Hello x s with
    | none => simp [HellosLoop, hH] at h
    | some r =>
      obtain ⟨⟨msg, err⟩, s1⟩ := r
      cases err with
      | some e => simp [HellosLoop, hH] at h
      | none =>
        simp only [HellosLoop, hH] at h ⊢
        exact ih _ _ _ _ h

/-- The state of the random source after a successful call of `Hellos`. -/
theorem Hellos_ok_state (names : List String) (s : RandState) (m : StrMap)
    (s' : RandState) (h : Hellos names s = some ((some m, none), s')) :
    s' = ⟨s.stream, s.pos + names.length⟩ := by
  have hnot : "" ∉ names := by
    intro hin
    obtain ⟨pre, _, _, _, hrun⟩ := Hellos_fail names hin s
    rw [hrun] at h
    simp at h
  obtain ⟨m0, hrun, _⟩ := Hellos_ok names (fun n hn hEq => hnot (hEq ▸ hn)) s
  rw [hrun] at h
  exact (congrArg (fun r => r.2) (Option.some.inj h)).symm

/-- The state of the random source after a failing call of `Hellos`. -/
theorem Hellos_fail_state (names : List String) (s : RandState)
    (mres : Option StrMap) (e : GoError) (s' : RandState)
    (h : Hellos names s = some ((mres, some e), s')) :
    ∃ pre post, names = pre ++ "" :: post ∧ (∀ n ∈ pre, n ≠ "") ∧
      s' = ⟨s.stream, s.pos + pre.length⟩ := by
  have hin : "" ∈ names := by
    by_contra hnot
    obtain ⟨m, hrun, _⟩ := Hellos_ok names (fun n hn hEq => hnot (hEq ▸ hn)) s
    rw [hrun] at h
    simp at h
  obtain ⟨pre, post, hEq, hpre, hrun⟩ := Hellos_fail names hin s
  rw [hrun] at h
  exact ⟨pre, post, hEq, hpre, (congrArg (fun r => r.2) (Option.some.inj h)).symm⟩

/-- The name at position `j` is greeted from the draw at position `j`: the loop
over the first `j + 1` names ends with that name mapped to the message `Hello`
builds in the state reached after `j` draws, and `Hellos` goes on from there. -/
theorem Hellos_jth_name (names : List String) (hne : ∀ n ∈ names, n ≠ "")
    (s : RandState) (j : Nat) (k : String) (hj : names[j]? = some k) :
    ∃ (mj : StrMap) (v : String),
      Hellos (names.take (j + 1)) s = some ((some mj, none), ⟨s.stream, s.pos + j + 1⟩) ∧
      Hello k ⟨s.stream, s.pos + j⟩ = some ((v, none), ⟨s.stream, s.pos + j + 1⟩) ∧
      mj.get? k = some v ∧
      Hellos names s = HellosLoop (names.drop (j + 1)) mj ⟨s.stream, s.pos + j + 1⟩ := by
  have hlt : j < names.length := by
    by_contra hge
    rw [List.getElem?_eq_none (Nat.le_of_not_lt hge)] at hj
    exact Option.noConfusion hj
  have hlen : (names.take (j + 1)).length = j + 1 := by
    rw [List.length_take]; omega
  obtain ⟨mj, hrun, _, _, hval, _⟩ :=
    Hellos_ok (names.take (j + 1)) (fun n hn => hne n (List.mem_of_mem_take hn)) s
  rw [hlen] at hrun
  have hjt : (names.take (j + 1))[j]? = some k := by
    rw [List.getElem?_take_of_lt (Nat.lt_succ_self j)]; exact hj
  obtain ⟨v, hget, hH⟩ := hval j k hjt (fun j' hlt' => by
    rw [List.getElem?_eq_none (by rw [hlen]; omega)]
    exact fun h => Option.noConfusion h)
  refine ⟨mj, v, hrun, hH, hget, ?_⟩
  have hsplit : Hellos names s
      = HellosLoop (names.take (j + 1) ++ names.drop (j + 1)) [] s := by
    rw [List.take_append_drop]; rfl
  rw [hsplit]
  exact HellosLoop_append _ _ _ _ _ _ hrun

/-- C11: `Hellos` handles the names in sequence order and stops at the first
empty one. On non-empty names it succeeds after exactly one draw per name, and
every successful call ends in that state; the name at position `j` is greeted
from the draw at position `j` (the loop over the first `j + 1` names maps it to
the message `Hello` builds in the state reached after `j` draws, and the call
goes on from there with the remaining names). When the first empty name comes
after the names `pre`, the call fails after exactly `pre.length` draws, whatever
names follow the empty one, and every failing call is of this kind. -/
theorem Hellos_consumes_draws_in_order :
    (∀ (names : List String) (s : RandState), (∀ n ∈ names, n ≠ "") →
      ∃ m : StrMap,
        Hellos names s = some ((some m, none), ⟨s.stream, s.pos + names.length⟩)) ∧
    (∀ (names : List String) (s : RandState) (m : StrMap) (s' : RandState),
      Hellos names s = some ((some m, none), s') →
        s' = ⟨s.stream, s.pos + names.length⟩) ∧
    (∀ (names : List String) (s : RandState), (∀ n ∈ names, n ≠ "") →
      ∀ (j : Nat) (k : String), names[j]? = some k →
        ∃ (mj : StrMap) (v : String),
          Hellos (names.take (j + 1)) s
            = some ((some mj, none), ⟨s.stream, s.pos + j + 1⟩) ∧
          Hello k ⟨s.stream, s.pos + j⟩ = some ((v, none), ⟨s.stream, s.pos + j + 1⟩) ∧
          mj.get? k = some v ∧
          Hellos names s = HellosLoop (names.drop (j + 1)) mj ⟨s.stream, s.pos + j + 1⟩) ∧
    (∀ (pre post : List String) (s : RandState), (∀ n ∈ pre, n ≠ "") →
      Hellos (pre ++ "" :: post) s
        = some ((none, some (errorsNew "empty name")), ⟨s.stream, s.pos + pre.length⟩)) ∧
    (∀ (names : List String) (s : RandState) (mres : Option StrMap) (e : GoError)
      (s' : RandState), Hellos names s = some ((mres, some e), s') →
        ∃ pre post, names = pre ++ "" :: post ∧ (∀ n ∈ pre, n ≠ "") ∧
          s' = ⟨s.stream, s.pos + pre.length⟩) := by
  refine ⟨fun names s hne => ?_, Hellos_ok_state,
    fun names s hne => Hellos_jth_name names hne s, fun pre post s hpre => ?_,
    Hellos_fail_state⟩
  · obtain ⟨m, hrun, _⟩ := Hellos_ok names hne s
    exact ⟨m, hrun⟩
  · exact HellosLoop_fail pre post [] s hpre

/-- C11 at the names `Alice`, `Bob`, empty, `Carol`, empty, after five earlier
draws: the call fails after two more draws. -/
theorem Hellos_consumes_draws_in_order_witness :
    (∀ n ∈ ["Alice", "Bob"], n ≠ "") ∧
      Hellos (["Alice", "Bob"] ++ "" :: ["Carol", ""]) ⟨fun k => k, 5⟩
        = some ((none, some (errorsNew "empty name")),
            ⟨fun k => k, 5 + ["Alice", "Bob"].length⟩) :=
  ⟨by decide,
    Hellos_consumes_draws_in_order.2.2.2.1 ["Alice", "Bob"] ["Carol", ""] ⟨fun k => k, 5⟩
      (by decide)⟩

/-! ## Further facts about Hello, randomFormat and Hellos -/

/-- C13: `Hello` called with the empty name returns its error without drawing:
the state of the random source after the call is the state before it. -/
theorem Hello_empty_name_consumes_no_draw :
    ∀ s : RandState,
      Hello "" s = some (("", some (errorsNew "empty name")), s) ∧
      ∀ (r : String × Option GoError) (s' : RandState),
        Hello "" s = some (r, s') → s' = s ∧ s'.pos = s.pos ∧ s'.stream = s.stream := by
  intro s
  have h : Hello "" s = some (("", some (errorsNew "empty name")), s) := by simp [Hello]
  refine ⟨h, fun r s' hrun => ?_⟩
  rw [h] at hrun
  have hs : s = s' := congrArg (fun x => x.2) (Option.some.inj hrun)
  subst hs
  exact ⟨rfl, rfl, rfl⟩

/-- The length in bytes of a list of characters is additive. -/
theorem utf8ByteSize_go_append (l1 l2 : List Char) :
    String.utf8ByteSize.go (l1 ++ l2)
      = String.utf8ByteSize.go l1 + String.utf8ByteSize.go l2 := by
  induction l1 with
  | nil => simp [String.utf8ByteSize.go]
  | cons c cs ih =>
    show String.utf8ByteSize.go (cs ++ l2) + c.utf8Size
      = String.utf8ByteSize.go cs + c.utf8Size + String.utf8ByteSize.go l2
    rw [ih]
    omega

/-- The builtin `len` is additive on concatenation. -/
theorem len_append (a b : String) : len (a ++ b) = len a + len b := by
  cases a with
  | mk l1 =>
    cases b with
    | mk l2 => exact utf8ByteSize_go_append l1 l2

/-- C14: each format is its fixed text before `%v`, the verb `%v`, and its fixed
text after it, and that fixed text holds no percent sign; for every non-empty
name `n`, whatever characters it holds, and the draw `i`, the message of
`Hello` is the text before, then `n` unchanged, then the text after, and its
length (in bytes, and in characters) is the length of `n` plus the length of
format `i` minus 2. -/
theorem Hello_inserts_name_verbatim :
    formats = parts.map (fun p => p.1 ++ "%v" ++ p.2) ∧
    (∀ p ∈ parts, '%' ∉ p.1.data ∧ '%' ∉ p.2.data) ∧
    (∀ n : String, n ≠ "" → ∀ s : RandState,
      ∃ (i : Nat) (s' : RandState) (f : String) (p : String × String),
        Intn (formats.length : Int) s = some ((i : Int), s') ∧
        formats[i]? = some f ∧ parts[i]? = some p ∧
        Hello n s = some ((p.1 ++ n ++ p.2, none), s') ∧
        len (p.1 ++ n ++ p.2) = len n + len f - 2 ∧
        (p.1 ++ n ++ p.2).length = n.length + f.length - 2) := by
  refine ⟨by decide, by decide, fun n hn s => ?_⟩
  have hlt : s.stream s.pos % 3 < 3 := Nat.mod_lt _ (by decide)
  have hI : Intn (formats.length : Int) s
      = some (((s.stream s.pos % 3 : Nat) : Int), ⟨s.stream, s.pos + 1⟩) := Intn_three s
  have hH : Hello n s
      = (formats[s.stream s.pos % 3]?).map
          (fun f => ((Sprintf f [n], none), (⟨s.stream, s.pos + 1⟩ : RandState))) := by
    unfold Hello
    rw [if_neg hn, randomFormat_eq]
    cases formats[s.stream s.pos % 3]? <;> rfl
  rw [hI, hH]
  generalize s.stream s.pos % 3 = i at hlt
  have l0 : len "Hi, %v. Welcome!" = 16 ∧ len "Hi, " = 4 ∧ len ". Welcome!" = 10 := by
    decide
  have l1 : len "Great to see you, %v!" = 21 ∧ len "Great to see you, " = 18 ∧
      len "!" = 1 := by decide
  have l2 : len "Hail, %v! Well met!" = 19 ∧ len "Hail, " = 6 ∧
      len "! Well met!" = 11 := by decide
  interval_cases i
  · refine ⟨0, _, "Hi, %v. Welcome!", ("Hi, ", ". Welcome!"), rfl, rfl, rfl, ?_, ?_, ?_⟩
    · simp [formats, Sprintf_format0]
    · simp only [len_append, l0.1, l0.2.1, l0.2.2]; omega
    · simp only [String.length_append]
      have e1 : "Hi, %v. Welcome!".length = 16 := by decide
      have e2 : "Hi, ".length = 4 := by decide
      have e3 : ". Welcome!".length = 10 := by decide
      omega
  · refine ⟨1, _, "Great to see you, %v!", ("Great to see you, ", "!"), rfl, rfl, rfl,
      ?_, ?_, ?_⟩
    · simp [formats, Sprintf_format1]
    · simp only [len_append, l1.1, l1.2.1, l1.2.2]; omega
    · simp only [String.length_append]
      have e1 : "Great to see you, %v!".length = 21 := by decide
      have e2 : "Great to see you, ".length = 18 := by decide
      have e3 : "!".length = 1 := by decide
      omega
  · refine ⟨2, _, "Hail, %v! Well met!", ("Hail, ", "! Well met!"), rfl, rfl, rfl, ?_, ?_, ?_⟩
    · simp [formats, Sprintf_format2]
    · simp only [len_append, l2.1, l2.2.1, l2.2.2]; omega
    · simp only [String.length_append]
      have e1 : "Hail, %v! Well met!".length = 19 := by decide
      have e2 : "Hail, ".length = 6 := by decide
      have e3 : "! Well met!".length = 11 := by decide
      omega

/-- C14 at the names `%v`, `%d` and `%`: the name is copied, not read as a
directive. -/
theorem Hello_inserts_name_verbatim_witness :
    Hello "%v" ⟨fun k => k, 0⟩ = some (("Hi, %v. Welcome!", none), ⟨fun k => k, 1⟩) ∧
    Hello "%d" ⟨fun k => k, 1⟩ = some (("Great to see you, %d!", none), ⟨fun k => k, 2⟩) ∧
    Hello "%" ⟨fun k => k, 2⟩ = some (("Hail, %! Well met!", none), ⟨fun k => k, 3⟩) ∧
    "%d" ≠ "" ∧
    ∃ (i : Nat) (s' : RandState) (f : String) (p : String × String),
      Intn (formats.length : Int) ⟨fun k => k, 1⟩ = some ((i : Int), s') ∧
      formats[i]? = some f ∧ parts[i]? = some p ∧
      Hello "%d" ⟨fun k => k, 1⟩ = some ((p.1 ++ "%d" ++ p.2, none), s') ∧
      len (p.1 ++ "%d" ++ p.2) = len "%d" + len f - 2 ∧
      (p.1 ++ "%d" ++ p.2).length = "%d".length + f.length - 2 :=
  ⟨rfl, rfl, rfl, by decide,
    Hello_inserts_name_verbatim.2.2 "%d" (by decide) ⟨fun k => k, 1⟩⟩

/-- C15: `formats` has length 3, so `rand.Intn(len(formats))` is called with a
positive argument, does not panic, and returns `i` with `0 <= i < 3`; this `i`
is a valid index of `formats`, so `randomFormat` does not panic; hence `Hello`
and `Hellos` return on every input and in every state of the random source. -/
theorem randomFormat_never_panics :
    formats.length = 3 ∧ (0 : Int) < (formats.length : Int) ∧
    (∀ (n : Int) (s : RandState), 0 < n →
      ∃ (i : Int) (s' : RandState), Intn n s = some (i, s') ∧ 0 ≤ i ∧ i < n) ∧
    (∀ s : RandState, ∃ (i : Int) (s' : RandState) (f : String),
      Intn (formats.length : Int) s = some (i, s') ∧ 0 ≤ i ∧ i < 3 ∧
      index formats i = some f ∧ randomFormat s = some (f, s')) ∧
    (∀ (name : String) (s : RandState), ∃ r, Hello name s = some r) ∧
    (∀ (names : List String) (s : RandState), ∃ r, Hellos names s = some r) := by
  refine ⟨rfl, by decide, fun n s hn => ?_, fun s => ?_, fun name s => ?_,
    fun names s => ?_⟩
  · exact ⟨(s.stream s.pos : Int) % n, ⟨s.stream, s.pos + 1⟩,
      by simp [Intn, not_le.mpr hn], Int.emod_nonneg _ (ne_of_gt hn),
      Int.emod_lt_of_pos _ hn⟩
  · have hlt : s.stream s.pos % 3 < 3 := Nat.mod_lt _ (by decide)
    have hrf := randomFormat_eq s
    cases hf : formats[s.stream s.pos % 3]? with
    | none =>
      have := List.getElem?_eq_none_iff.mp hf
      have h3 : formats.length = 3 := rfl
      omega
    | some f =>
      rw [hf] at hrf
      refine ⟨_, _, f, Intn_three s, Int.natCast_nonneg _, by exact_mod_cast hlt, ?_, hrf⟩
      rw [index_formats_natCast, hf]
  · by_cases hn : name = ""
    · subst hn
      exact ⟨(("", some (errorsNew "empty name")), s), by simp [Hello]⟩
    · obtain ⟨msg, _, hHello⟩ := Hello_eq_shape name hn s
      exact ⟨_, hHello⟩
  · by_cases hin : "" ∈ names
    · obtain ⟨_, _, _, _, hrun⟩ := Hellos_fail names hin s
      exact ⟨_, hrun⟩
    · obtain ⟨m, hrun, _⟩ := Hellos_ok names (fun n hn hEq => hin (hEq ▸ hn)) s
      exact ⟨_, hrun⟩

/-- C15 at the argument `3` after two earlier draws. -/
theorem randomFormat_never_panics_witness :
    (0 : Int) < 3 ∧
      ∃ (i : Int) (s' : RandState),
        Intn 3 ⟨fun k => k * k, 2⟩ = some (i, s') ∧ 0 ≤ i ∧ i < 3 :=
  ⟨by decide, randomFormat_never_panics.2.2.1 3 ⟨fun k => k * k, 2⟩ (by decide)⟩

/-- C16: `Hellos` called with no names succeeds: it returns the nil error and a
table that is not nil and has no entry, and leaves the state of the random
source as it was. -/
theorem Hellos_no_names :
    ∀ s : RandState, ∃ m : StrMap,
      Hellos [] s = some ((some m, none), s) ∧ m.len = 0 ∧ m.keys = [] ∧
      ∀ k, m.get? k = none := by
  intro s
  exact ⟨[], rfl, rfl, rfl, fun _ => rfl⟩

/-! ## The identity of the error value -/

/-- Two calls of `errors.New` return different error values, also when the
texts are equal. -/
theorem errorsNew_fresh (t1 t2 : String) (heap : Nat) :
    (Alloc.errorsNew t1 heap).1 ≠ (Alloc.errorsNew t2 (Alloc.errorsNew t1 heap).2).1 := by
  intro h
  have haddr := congrArg Alloc.ErrorPtr.addr h
  simp [Alloc.errorsNew] at haddr

/-- On the empty name `Hello` allocates one error value, at the next free
address, and leaves the generator alone. -/
theorem Alloc_Hello_empty (s : Alloc.State) :
    Alloc.Hello "" s
      = some (("", some ⟨s.heap, errorsNew "empty name"⟩), ⟨s.rand, s.heap + 1⟩) := by
  simp [Alloc.Hello, Alloc.errorsNew, errorsNew]

/-- On a non-empty name `Hello` allocates no error value, and its message and
generator state are those of `Hello` seen without the heap. -/
theorem Alloc_Hello_nonempty (n : String) (hn : n ≠ "") (s : Alloc.State) :
    ∃ v, Hello n s.rand = some ((v, none), ⟨s.rand.stream, s.rand.pos + 1⟩) ∧
      Alloc.Hello n s
        = some ((v, none), ⟨⟨s.rand.stream, s.rand.pos + 1⟩, s.heap⟩) := by
  obtain ⟨msg, _, hHello⟩ := Hello_eq_shape n hn s.rand
  refine ⟨msg, hHello, ?_⟩
  unfold Hello at hHello
  unfold Alloc.Hello
  rw [if_neg hn] at hHello ⊢
  cases hrf : randomFormat s.rand with
  | none => rw [hrf] at hHello; exact Option.noConfusion hHello
  | some r =>
    obtain ⟨f, r'⟩ := r
    rw [hrf] at hHello
    simp only [Option.some.injEq, Prod.mk.injEq, and_true] at hHello ⊢
    exact ⟨hHello.1, by rw [hHello.2]⟩

/-- The loop on names that are all non-empty allocates no error value, and its
table and generator state are those of the loop seen without the heap. -/
theorem Alloc_HellosLoop_ok (names : List String) :
    ∀ (m : StrMap) (s : Alloc.State), (∀ n ∈ names, n ≠ "") →
      ∃ m' : StrMap,
        HellosLoop names m s.rand
          = some ((some m', none), ⟨s.rand.stream, s.rand.pos + names.length⟩) ∧
        Alloc.HellosLoop names m s
          = some ((some m', none),
              ⟨⟨s.rand.stream, s.rand.pos + names.length⟩, s.heap⟩) := by
  induction names with
  | nil =>
    intro m s _
    exact ⟨m, rfl, rfl⟩
  | cons n rest ih =>
    intro m s hne
    have hn : n ≠ "" := hne n (List.mem_cons_self _ _)
    obtain ⟨v, hH, hAH⟩ := Alloc_Hello_nonempty n hn s
    obtain ⟨m', h1, h2⟩ := ih (m.set n v) ⟨⟨s.rand.stream, s.rand.pos + 1⟩, s.heap⟩
      (fun x hx => hne x (List.mem_cons_of_mem _ hx))
    have e1 : s.rand.pos + 1 + rest.length = s.rand.pos + (rest.length + 1) := by omega
    refine ⟨m', ?_, ?_⟩
    · simp only [HellosLoop, hH, h1, List.length_cons, e1]
    · simp only [Alloc.HellosLoop, hAH, h2, List.length_cons, e1]

/-- The loop on names whose first empty one comes after `pre` returns the nil
map and the error value `Hello` allocated, and stops in the state `Hello` left:
one draw per name of `pre`, one error value allocated. -/
theorem Alloc_HellosLoop_fail (pre post : List String) :
    ∀ (m : StrMap) (s : Alloc.State), (∀ n ∈ pre, n ≠ "") →
      Alloc.HellosLoop (pre ++ "" :: post) m s
        = some ((none, some ⟨s.heap, errorsNew "empty name"⟩),
            ⟨⟨s.rand.stream, s.rand.pos + pre.length⟩, s.heap + 1⟩) := by
  induction pre with
  | nil =>
    intro m s _
    show Alloc.HellosLoop ("" :: post) m s = _
    simp only [Alloc.HellosLoop, Alloc_Hello_empty]
    rfl
  | cons n rest ih =>
    intro m s hne
    have hn : n ≠ "" := hne n (List.mem_cons_self _ _)
    obtain ⟨v, _, hAH⟩ := Alloc_Hello_nonempty n hn s
    have h := ih (m.set n v) ⟨⟨s.rand.stream, s.rand.pos + 1⟩, s.heap⟩
      (fun x hx => hne x (List.mem_cons_of_mem _ hx))
    have e1 : s.rand.pos + 1 + rest.length = s.rand.pos + (rest.length + 1) := by omega
    show Alloc.HellosLoop (n :: (rest ++ "" :: post)) m s = _
    simp only [Alloc.HellosLoop, hAH, h, List.length_cons, e1]

/-- Seen through the text of its error and the generator of its state, `Hello`
with the heap is `Hello`. -/
theorem Hello_alloc_erase (name : String) (s : Alloc.State) :
    (Alloc.Hello name s).map Alloc.erase = Hello name s.rand := by
  by_cases hn : name = ""
  · subst hn
    rw [Alloc_Hello_empty]
    simp [Hello, Alloc.erase]
  · obtain ⟨v, hH, hAH⟩ := Alloc_Hello_nonempty name hn s
    rw [hH, hAH]
    rfl

/-- Seen through the text of its error and the generator of its state, `Hellos`
with the heap is `Hellos`. -/
theorem Hellos_alloc_erase (names : List String) (s : Alloc.State) :
    (Alloc.Hellos names s).map Alloc.erase = Hellos names s.rand := by
  by_cases hin : "" ∈ names
  · obtain ⟨pre, post, hEq, hpre⟩ := split_at_first_empty names hin
    subst hEq
    unfold Alloc.Hellos Hellos
    rw [Alloc_HellosLoop_fail pre post [] s hpre, HellosLoop_fail pre post [] s.rand hpre]
    rfl
  · obtain ⟨m', h1, h2⟩ :=
      Alloc_HellosLoop_ok names [] s (fun n hn hEq => hin (hEq ▸ hn))
    unfold Alloc.Hellos Hellos
    rw [h1, h2]
    rfl

/-- C6: whenever `Hellos` returns a non-nil error `e`, the map it returns is
nil, although the loop had built a table with the names `pre` before the first
empty name; the text of `e` is `empty name`; and `e` is the very error value
the call of `Hello` on that empty name returned: `Hellos` stops in the state
that call left, `e` sits at the address that call allocated, no other error
value was allocated, and any error value built afterwards would differ from
`e`. -/
theorem Hellos_failure_returns_error_of_Hello (names : List String) (s : Alloc.State)
    (mres : Option StrMap) (e : Alloc.ErrorPtr) (s' : Alloc.State)
    (h : Alloc.Hellos names s = some ((mres, some e), s')) :
    mres = none ∧ e.Error = "empty name" ∧
    ∃ (pre post : List String) (mpre : StrMap),
      names = pre ++ "" :: post ∧ (∀ n ∈ pre, n ≠ "") ∧
      Alloc.Hellos pre s
        = some ((some mpre, none), ⟨⟨s.rand.stream, s.rand.pos + pre.length⟩, s.heap⟩) ∧
      (∀ k, k ∈ mpre.keys ↔ k ∈ pre) ∧
      Alloc.Hello "" ⟨⟨s.rand.stream, s.rand.pos + pre.length⟩, s.heap⟩
        = some (("", some e), s') ∧
      e.addr = s.heap ∧ s'.heap = s.heap + 1 ∧
      ∀ text : String, (Alloc.errorsNew text s'.heap).1 ≠ e := by
  have hin : "" ∈ names := by
    by_contra hnot
    obtain ⟨m', _, h2⟩ :=
      Alloc_HellosLoop_ok names [] s (fun n hn hEq => hnot (hEq ▸ hn))
    unfold Alloc.Hellos at h
    rw [h2] at h
    simp at h
  obtain ⟨pre, post, hEq, hpre⟩ := split_at_first_empty names hin
  have hrun := Alloc_HellosLoop_fail pre post [] s hpre
  unfold Alloc.Hellos at h
  rw [hEq, hrun] at h
  have h1 := Option.some.inj h
  have hm : (none : Option StrMap) = mres := congrArg (fun r => r.1.1) h1
  have he : (⟨s.heap, errorsNew "empty name"⟩ : Alloc.ErrorPtr) = e :=
    Option.some.inj (congrArg (fun r => r.1.2) h1)
  have hs : (⟨⟨s.rand.stream, s.rand.pos + pre.length⟩, s.heap + 1⟩ : Alloc.State) = s' :=
    congrArg (fun r => r.2) h1
  subst he; subst hs
  obtain ⟨mpre, hc, ha⟩ := Alloc_HellosLoop_ok pre [] s hpre
  obtain ⟨m0, hrun0, _, hkeys, _⟩ := Hellos_ok pre hpre s.rand
  have hmm : m0 = mpre := by
    have hc' : Hellos pre s.rand
        = some ((some mpre, none), ⟨s.rand.stream, s.rand.pos + pre.length⟩) := hc
    rw [hrun0] at hc'
    have := Option.some.inj hc'
    exact Option.some.inj (congrArg (fun r => r.1.1) this)
  subst hmm
  refine ⟨hm.symm, rfl, pre, post, m0, hEq, hpre, ha, hkeys, ?_, rfl, rfl, fun text hcon => ?_⟩
  · exact Alloc_Hello_empty _
  · have haddr := congrArg Alloc.ErrorPtr.addr hcon
    simp [Alloc.errorsNew] at haddr

/-- C6 at the names `Alice`, empty, `Bob`, with seven error values allocated
before the call: the error returned is the eighth, the one `Hello` built, and
the table that held the greeting of `Alice` is not returned. -/
theorem Hellos_failure_returns_error_of_Hello_witness :
    Alloc.Hellos ["Alice", "", "Bob"] ⟨⟨fun k => k, 0⟩, 7⟩
        = some ((none, some ⟨7, ⟨"empty name"⟩⟩), ⟨⟨fun k => k, 1⟩, 8⟩) ∧
      ((none : Option StrMap) = none ∧
        (⟨7, ⟨"empty name"⟩⟩ : Alloc.ErrorPtr).Error = "empty name" ∧
        ∃ (pre post : List String) (mpre : StrMap),
          ["Alice", "", "Bob"] = pre ++ "" :: post ∧ (∀ n ∈ pre, n ≠ "") ∧
          Alloc.Hellos pre ⟨⟨fun k => k, 0⟩, 7⟩
            = some ((some mpre, none), ⟨⟨fun k => k, 0 + pre.length⟩, 7⟩) ∧
          (∀ k, k ∈ mpre.keys ↔ k ∈ pre) ∧
          Alloc.Hello "" ⟨⟨fun k => k, 0 + pre.length⟩, 7⟩
            = some (("", some ⟨7, ⟨"empty name"⟩⟩), ⟨⟨fun k => k, 1⟩, 8⟩) ∧
          (⟨7, ⟨"empty name"⟩⟩ : Alloc.ErrorPtr).addr = 7 ∧ 8 = 7 + 1 ∧
          ∀ text : String, (Alloc.errorsNew text 8).1 ≠ ⟨7, ⟨"empty name"⟩⟩) :=
  ⟨rfl,
    Hellos_failure_returns_error_of_Hello ["Alice", "", "Bob"] ⟨⟨fun k => k, 0⟩, 7⟩ none
      ⟨7, ⟨"empty name"⟩⟩ ⟨⟨fun k => k, 1⟩, 8⟩ rfl⟩

end Greetings

namespace Intro

/-! ## The quote printer -/

/-- C12: when `quote.Go()` returns the text `q`, `main` appends to standard
output exactly `q` followed by one newline, and nothing else; started with
nothing written, the output is `q` and a newline, which is exactly one line,
ended by the newline, whenever `q` holds no newline. -/
theorem main_writes_quote_and_newline :
    (∀ (q out : String), main (some q) out = some (out ++ q ++ "\n")) ∧
    (∀ q : String, main (some q) "" = some (q ++ "\n")) ∧
    (∀ (q out : String), main (some q) "" = some out → '\n' ∉ q.data →
      lineCount out = 1 ∧ out.data.getLast? = some '\n') := by
  have h1 : ∀ (q out : String), main (some q) out = some (out ++ q ++ "\n") := by
    intro q out
    simp only [main, Println, Option.some.injEq]
    apply String.ext
    simp [String.data_append, String.intercalate, String.intercalate.go]
  have h2 : ∀ q : String, main (some q) "" = some (q ++ "\n") := by
    intro q
    rw [h1]
    have hq : "" ++ q ++ "\n" = q ++ "\n" := by
      apply String.ext
      simp [String.data_append]
    rw [hq]
  refine ⟨h1, h2, fun q out hrun hq => ?_⟩
  rw [h2] at hrun
  have hout : out = q ++ "\n" := (Option.some.inj hrun).symm
  subst hout
  have hd : (q ++ "\n").data = q.data ++ ['\n'] := by simp [String.data_append]
  refine ⟨?_, ?_⟩
  · simp only [lineCount, hd, List.count_append]
    rw [List.count_eq_zero.mpr hq]
    decide
  · rw [hd]; simp

/-- C12 at the text `Don't communicate by sharing memory, share memory by
communicating.`, the text of the comment in `main`. -/
theorem main_writes_quote_and_newline_witness :
    main (some "Don't communicate by sharing memory, share memory by communicating.") ""
        = some "Don't communicate by sharing memory, share memory by communicating.\n" ∧
      (lineCount "Don't communicate by sharing memory, share memory by communicating.\n" = 1 ∧
        ("Don't communicate by sharing memory, share memory by communicating.\n").data.getLast?
          = some '\n') :=
  ⟨rfl,
    main_writes_quote_and_newline.2.2
      "Don't communicate by sharing memory, share memory by communicating."
      "Don't communicate by sharing memory, share memory by communicating.\n" rfl (by decide)⟩

end Intro
